import Mathlib

/-!
Verification of the github-repo-maintainer-agent core against its
natural-language specification.

Strings from the Python source are modelled as `List Char`; dict-shaped API
responses become structures; the network is abstracted as explicit oracles
(functions passed in as arguments).  Each definition is a shallow embedding
of the correspondingly named function in `src/github_client.py`,
`src/agent.py` or `src/models.py`.
-/

namespace RepoAgent

/-- Python `str.strip()` whitespace set (ASCII part; the source only handles
ASCII CI logs). -/
def isPyWs (c : Char) : Bool :=
  c = ' ' || c = '\t' || c = '\n' || c = '\r' || c = '\x0b' || c = '\x0c'

/-- Python `str.strip()`: drop leading and trailing whitespace. -/
def pyStrip (l : List Char) : List Char :=
  ((l.dropWhile isPyWs).reverse.dropWhile isPyWs).reverse

/-- Line-break characters recognised by Python `str.splitlines()`
(ASCII and the Unicode separators). -/
def isLineBreakPy (c : Char) : Bool :=
  c = '\n' || c = '\r' || c = '\x0b' || c = '\x0c' ||
  c = '\x1c' || c = '\x1d' || c = '\x1e' || c = '\x85' ||
  c = ' ' || c = ' '

/-- Python `str.splitlines()`: split at line breaks, treating `\r\n` as a
single break; a trailing break does not produce a final empty line. -/
def splitlinesPy : List Char → List (List Char)
  | [] => []
  | '\r' :: '\n' :: t => [] :: splitlinesPy t
  | c :: t =>
    if isLineBreakPy c then [] :: splitlinesPy t
    else
      match splitlinesPy t with
      | [] => [[c]]
      | l :: ls => (c :: l) :: ls

/-- Python `"\n".join(lines)`. -/
def joinNL (ls : List (List Char)) : List Char :=
  List.intercalate ['\n'] ls

/-- Python `lines[-n:]` (for `n > 0`): the last `n` elements. -/
def lastN (n : Nat) (l : List α) : List α :=
  l.drop (l.length - n)

/-- The literal part of the completion-marker regex
`##\[error\]Process completed with exit code \d+` that precedes the digits. -/
def markerLit : List Char := "##[error]Process completed with exit code ".data

/-- Whether the completion-marker regex matches at the head of `s`:
the literal prefix followed by at least one digit. -/
def markerHere (s : List Char) : Bool :=
  markerLit.isPrefixOf s &&
    (match s.drop markerLit.length with
     | [] => false
     | c :: _ => c.isDigit)

/-- `re.search` over the completion-marker pattern: index of the leftmost
position at which the marker matches, if any. -/
def findMarker : List Char → Option Nat
  | [] => none
  | c :: t =>
    if markerHere (c :: t) then some 0
    else (findMarker t).map (· + 1)

/-- The duplicated tail-taking block of `_extract_last_lines_before_completion`:
if the text has at most `n` lines return it unchanged, otherwise join the
last `n` lines with newlines. -/
def tailJoin (n : Nat) (s : List Char) : List Char :=
  if (splitlinesPy s).length ≤ n then s
  else joinNL (lastN n (splitlinesPy s))

/-- `GitHubClient._extract_last_lines_before_completion` from
`src/github_client.py`: search for the completion marker; if found, strip the
text before the match position and keep at most its last `line_count` lines;
otherwise keep at most the last `line_count` lines of the whole log. -/
def extractLastLinesBeforeCompletion (log : List Char) (lineCount : Nat := 20) :
    List Char :=
  match findMarker log with
  | some pos => tailJoin lineCount (pyStrip (log.take pos))
  | none => tailJoin lineCount log

/-- Rendering of claim C1's own words (for comparison with the code): locate
the LAST occurrence of the marker; if found, keep up to the last 20 lines of
the (unstripped) preceding text; otherwise up to the last 20 lines of the
whole log. -/
def findMarkerLast (l : List Char) : Option Nat :=
  ((List.range l.length).filter (fun i => markerHere (l.drop i))).getLast?

/-- Rendering of claim C1's own words (for comparison with the code). -/
def claimTrimLastOccurrence (log : List Char) : List Char :=
  match findMarkerLast log with
  | some pos => tailJoin 20 (log.take pos)
  | none => tailJoin 20 log

theorem markerHere_nil : markerHere [] = false := by decide

theorem findMarker_none {l : List Char} (h : findMarker l = none) :
    ∀ i, markerHere (l.drop i) = false := by
  induction l with
  | nil => intro i; simp [List.drop_nil, markerHere_nil]
  | cons c t ih =>
    intro i
    rw [findMarker] at h
    by_cases hm : markerHere (c :: t) = true
    · rw [if_pos hm] at h
      exact absurd h (by simp)
    · rw [if_neg hm] at h
      rw [Option.map_eq_none'] at h
      cases i with
      | zero => simpa using hm
      | succ j => simpa using ih h j

theorem findMarker_some {l : List Char} {i : Nat} (h : findMarker l = some i) :
    markerHere (l.drop i) = true ∧ ∀ j, j < i → markerHere (l.drop j) = false := by
  induction l generalizing i with
  | nil => simp [findMarker] at h
  | cons c t ih =>
    rw [findMarker] at h
    by_cases hm : markerHere (c :: t) = true
    · rw [if_pos hm] at h
      injection h with h
      subst h
      exact ⟨by simpa using hm, by omega⟩
    · rw [if_neg hm] at h
      rw [Option.map_eq_some'] at h
      obtain ⟨k, hk, hki⟩ := h
      obtain ⟨h1, h2⟩ := ih hk
      subst hki
      refine ⟨by simpa using h1, ?_⟩
      intro j hj
      cases j with
      | zero => simpa using hm
      | succ j' => simpa using h2 j' (by omega)

theorem findMarker_eq_some {l : List Char} {i : Nat}
    (h1 : markerHere (l.drop i) = true)
    (h2 : ∀ j, j < i → markerHere (l.drop j) = false) :
    findMarker l = some i := by
  induction l generalizing i with
  | nil => rw [List.drop_nil] at h1; rw [markerHere_nil] at h1; exact absurd h1 (by simp)
  | cons c t ih =>
    rw [findMarker]
    cases i with
    | zero =>
      rw [List.drop_zero] at h1
      rw [if_pos h1]
    | succ k =>
      have h0 : markerHere (c :: t) = false := by simpa using h2 0 (by omega)
      rw [if_neg (by simp [h0])]
      have ht : findMarker t = some k := by
        apply ih
        · simpa using h1
        · intro j hj
          simpa using h2 (j + 1) (by omega)
      simp [ht]

/-- C1 (amended): the completion-marker trim locates the FIRST occurrence of a
marker matching `##[error]Process completed with exit code <N>`; if the marker
is found, the text before it is stripped of surrounding whitespace and then,
when it has more than 20 lines, the result is exactly its last 20 lines,
otherwise the result is all of that stripped preceding text; if no marker is
found, the result is the last 20 lines of the whole log (the whole log when it
has at most 20 lines). -/
theorem completion_marker_trim_characterization (log : List Char) :
    ((∀ i, markerHere (log.drop i) = false) →
      extractLastLinesBeforeCompletion log 20 =
        (if (splitlinesPy log).length ≤ 20 then log
         else joinNL (lastN 20 (splitlinesPy log)))) ∧
    (∀ pos, markerHere (log.drop pos) = true →
      (∀ j, j < pos → markerHere (log.drop j) = false) →
      extractLastLinesBeforeCompletion log 20 =
        (if (splitlinesPy (pyStrip (log.take pos))).length ≤ 20 then
           pyStrip (log.take pos)
         else joinNL (lastN 20 (splitlinesPy (pyStrip (log.take pos)))))) := by
  constructor
  · intro h
    have hf : findMarker log = none := by
      cases hx : findMarker log with
      | none => rfl
      | some i =>
        have := (findMarker_some hx).1
        rw [h i] at this
        exact absurd this (by simp)
    simp only [extractLastLinesBeforeCompletion, hf, tailJoin]
  · intro pos h1 h2
    have hf : findMarker log = some pos := findMarker_eq_some h1 h2
    simp only [extractLastLinesBeforeCompletion, hf, tailJoin]

/-- Witness for the C1 theorem at a concrete log: the marker occurs first at
index 4, and the trim returns the stripped two preceding lines. -/
theorem completion_marker_trim_witness :
    extractLastLinesBeforeCompletion
      ("a\nb\n##[error]Process completed with exit code 1\nrest".data) 20 =
      "a\nb".data := by
  have h := (completion_marker_trim_characterization
    ("a\nb\n##[error]Process completed with exit code 1\nrest".data)).2 4
    (by decide) (by decide)
  rw [h]
  decide

/-- C1 counterexample: on a log with two completion markers, the code trims
before the FIRST marker, while the claim's words (trim before the LAST
marker) demand a different result. -/
theorem completion_marker_trim_counterexample :
    extractLastLinesBeforeCompletion
      ("a\nb\n##[error]Process completed with exit code 1\nc\nd\n" ++
       "##[error]Process completed with exit code 2\n").data 20 ≠
    claimTrimLastOccurrence
      ("a\nb\n##[error]Process completed with exit code 1\nc\nd\n" ++
       "##[error]Process completed with exit code 2\n").data := by
  decide

/-- The literal link-relation token of the pagination regex
`<([^>]*)>;\s*rel="next"`. -/
def relNextLit : List Char := "rel=\"next\"".data

/-- The `\s` class of Python's `re` module (ASCII part). -/
def isReWs (c : Char) : Bool :=
  c = ' ' || c = '\t' || c = '\n' || c = '\r' || c = '\x0b' || c = '\x0c'

/-- Whether the regex `<([^>]*)>;\s*rel="next"` matches at the head of `s`,
and with which capture group.  Backtracking cannot help the greedy `[^>]*`:
the group is forced to be everything up to the first `>`, so the match at a
position is this deterministic test. -/
def matchNextAt : List Char → Option (List Char)
  | [] => none
  | c :: rest =>
    if c = '<' then
      if ((rest.dropWhile (fun x => x != '>')).take 2) = ['>', ';'] then
        if relNextLit.isPrefixOf
            (((rest.dropWhile (fun x => x != '>')).drop 2).dropWhile isReWs) then
          some (rest.takeWhile (fun x => x != '>'))
        else none
      else none
    else none

/-- `re.search`: try `matchNextAt` at each position, leftmost first. -/
def searchNextUrl : List Char → Option (List Char)
  | [] => none
  | c :: t =>
    match matchNextAt (c :: t) with
    | some u => some u
    | none => searchNextUrl t

/-- `GitHubClient._get_next_url_from_link_header` from `src/github_client.py`:
empty header means no next page; otherwise search for the next-link pattern
and return its capture group. -/
def getNextUrlFromLinkHeader (h : List Char) : Option (List Char) :=
  if h.isEmpty then none else searchNextUrl h

/-- Whether `pat` occurs as a contiguous substring of `s`. -/
def containsList (pat s : List Char) : Bool :=
  (List.range (s.length + 1)).any (fun i => pat.isPrefixOf (s.drop i))

theorem matchNextAt_nil : matchNextAt [] = none := by decide

theorem matchNextAt_cons (c : Char) (rest : List Char) :
    matchNextAt (c :: rest) =
      if c = '<' then
        if ((rest.dropWhile (fun x => x != '>')).take 2) = ['>', ';'] then
          if relNextLit.isPrefixOf
              (((rest.dropWhile (fun x => x != '>')).drop 2).dropWhile isReWs)
          then some (rest.takeWhile (fun x => x != '>'))
          else none
        else none
      else none := rfl

theorem isPrefixOf_contains {pat s : List Char} {i : Nat}
    (hne : pat ≠ []) (h : pat.isPrefixOf (s.drop i) = true) :
    containsList pat s = true := by
  rw [containsList, List.any_eq_true]
  by_cases hi : i ≤ s.length
  · exact ⟨i, List.mem_range.2 (by omega), h⟩
  · exfalso
    rw [List.drop_eq_nil_of_le (by omega)] at h
    cases pat with
    | nil => exact hne rfl
    | cons a t => simp [List.isPrefixOf] at h

theorem matchNextAt_some_contains {s u : List Char}
    (h : matchNextAt s = some u) : containsList relNextLit s = true := by
  cases s with
  | nil => rw [matchNextAt_nil] at h; exact absurd h (by simp)
  | cons c rest =>
    rw [matchNextAt_cons] at h
    by_cases hc : c = '<'
    swap
    · rw [if_neg hc] at h; exact absurd h (by simp)
    rw [if_pos hc] at h
    by_cases ht : ((rest.dropWhile (fun x => x != '>')).take 2) = ['>', ';']
    swap
    · rw [if_neg ht] at h; exact absurd h (by simp)
    rw [if_pos ht] at h
    by_cases hp : relNextLit.isPrefixOf
        (((rest.dropWhile (fun x => x != '>')).drop 2).dropWhile isReWs) = true
    swap
    · rw [if_neg hp] at h; exact absurd h (by simp)
    -- the matched token sits at an explicit offset from the head of s
    obtain ⟨W, hW⟩ : ∃ W, rest.dropWhile (fun x => x != '>') =
        '>' :: ';' :: W := by
      refine ⟨(rest.dropWhile (fun x => x != '>')).drop 2, ?_⟩
      conv_lhs => rw [← List.take_append_drop 2
        (rest.dropWhile (fun x => x != '>'))]
      rw [ht]
      rfl
    have hpW : relNextLit.isPrefixOf (W.dropWhile isReWs) = true := by
      rw [hW] at hp
      exact hp
    have hrest : rest = rest.takeWhile (fun x => x != '>') ++ '>' :: ';' :: W := by
      conv_lhs => rw [← List.takeWhile_append_dropWhile
        (p := fun x => x != '>') (l := rest)]
      rw [hW]
    have hWsplit : W = W.takeWhile isReWs ++ W.dropWhile isReWs :=
      (List.takeWhile_append_dropWhile isReWs W).symm
    have e1 : (c :: rest) =
        (c :: (rest.takeWhile (fun x => x != '>') ++ '>' :: ';' ::
          W.takeWhile isReWs)) ++ W.dropWhile isReWs := by
      conv_lhs => rw [hrest]
      conv_lhs => rw [hWsplit]
      simp [List.append_assoc]
    have hdrop : (c :: rest).drop
        ((c :: (rest.takeWhile (fun x => x != '>') ++ '>' :: ';' ::
          W.takeWhile isReWs)).length) = W.dropWhile isReWs := by
      conv_lhs => rw [e1]
      rw [List.drop_left]
    exact isPrefixOf_contains (by decide) (hdrop ▸ hpW)

theorem searchNextUrl_some {s u : List Char} (h : searchNextUrl s = some u) :
    ∃ i, matchNextAt (s.drop i) = some u := by
  induction s with
  | nil => simp [searchNextUrl] at h
  | cons c t ih =>
    rw [searchNextUrl] at h
    cases hm : matchNextAt (c :: t) with
    | some v =>
      rw [hm] at h
      injection h with h
      subst h
      exact ⟨0, by simpa using hm⟩
    | none =>
      rw [hm] at h
      obtain ⟨i, hi⟩ := ih h
      exact ⟨i + 1, by simpa using hi⟩

theorem searchNextUrl_unique {s u : List Char} {i : Nat}
    (h1 : matchNextAt (s.drop i) = some u)
    (h2 : ∀ j, j < i → matchNextAt (s.drop j) = none) :
    searchNextUrl s = some u := by
  induction s generalizing i with
  | nil =>
    rw [List.drop_nil, matchNextAt_nil] at h1
    exact absurd h1 (by simp)
  | cons c t ih =>
    rw [searchNextUrl]
    cases i with
    | zero =>
      rw [List.drop_zero] at h1
      rw [h1]
    | succ k =>
      have h0 : matchNextAt (c :: t) = none := by simpa using h2 0 (by omega)
      rw [h0]
      apply ih (i := k)
      · simpa using h1
      · intro j hj
        simpa using h2 (j + 1) (by omega)

theorem dropWhile_relNext (post : List Char) :
    (relNextLit ++ post).dropWhile isReWs = relNextLit ++ post := by
  have h : relNextLit = 'r' :: "el=\"next\"".data := by decide
  rw [h, List.cons_append, List.dropWhile_cons, if_neg (by decide)]

theorem matchNextAt_fragment (url ws post : List Char)
    (hurl : ∀ c ∈ url, (c != '>') = true) (hws : ∀ c ∈ ws, isReWs c = true) :
    matchNextAt ('<' :: (url ++ '>' :: ';' :: (ws ++ relNextLit ++ post))) =
      some url := by
  have hdw : (url ++ '>' :: ';' :: (ws ++ relNextLit ++ post)).dropWhile
      (fun x => x != '>') = '>' :: ';' :: (ws ++ relNextLit ++ post) := by
    rw [List.dropWhile_append_of_pos hurl, List.dropWhile_cons,
      if_neg (by decide)]
  have htw : (url ++ '>' :: ';' :: (ws ++ relNextLit ++ post)).takeWhile
      (fun x => x != '>') = url := by
    rw [List.takeWhile_append_of_pos hurl, List.takeWhile_cons,
      if_neg (by decide), List.append_nil]
  have hws2 : (ws ++ relNextLit ++ post).dropWhile isReWs =
      relNextLit ++ post := by
    rw [List.append_assoc, List.dropWhile_append_of_pos hws, dropWhile_relNext]
  rw [matchNextAt_cons, if_pos rfl, hdw]
  have htake2 : ('>' :: ';' :: (ws ++ relNextLit ++ post)).take 2 =
      ['>', ';'] := rfl
  have hdrop2 : ('>' :: ';' :: (ws ++ relNextLit ++ post)).drop 2 =
      ws ++ relNextLit ++ post := rfl
  rw [htake2, if_pos rfl, hdrop2, hws2]
  rw [if_pos ?_]
  · rw [htw]
  · rw [List.isPrefixOf_iff_prefix]
    exact List.prefix_append relNextLit post

/-- C5: for every header string not containing the substring `rel="next"`,
`_get_next_url_from_link_header` returns no next URL (and, being a total
function, never raises — malformed headers included); and for every header
containing exactly one fragment of the form `<URL>; rel="next"` (formally:
the next-link pattern matches at exactly one position, namely the fragment's
opening angle bracket), it returns that URL verbatim. -/
theorem paginator_next_url_extraction (h : List Char) :
    (containsList relNextLit h = false → getNextUrlFromLinkHeader h = none) ∧
    (∀ pre url ws post,
      h = pre ++ '<' :: (url ++ '>' :: ';' :: (ws ++ relNextLit ++ post)) →
      (∀ c ∈ url, (c != '>') = true) →
      (∀ c ∈ ws, isReWs c = true) →
      (∀ j, j < h.length → j ≠ pre.length → matchNextAt (h.drop j) = none) →
      getNextUrlFromLinkHeader h = some url) := by
  constructor
  · intro hc
    rw [getNextUrlFromLinkHeader]
    by_cases he : h.isEmpty
    · rw [if_pos he]
    · rw [if_neg he]
      cases hs : searchNextUrl h with
      | none => rfl
      | some u =>
        exfalso
        obtain ⟨i, hi⟩ := searchNextUrl_some hs
        have h1 : containsList relNextLit (h.drop i) = true :=
          matchNextAt_some_contains hi
        rw [containsList, List.any_eq_true] at h1
        obtain ⟨j, _, hj⟩ := h1
        rw [List.drop_drop] at hj
        have h2 : containsList relNextLit h = true :=
          isPrefixOf_contains (by decide) hj
        rw [hc] at h2
        exact absurd h2 (by simp)
  · intro pre url ws post hdec hurl hws huniq
    have hmatch : matchNextAt (h.drop pre.length) = some url := by
      rw [hdec, List.drop_left]
      exact matchNextAt_fragment url ws post hurl hws
    have hlen : pre.length < h.length := by
      rw [hdec]
      simp only [List.length_append, List.length_cons]
      omega
    rw [getNextUrlFromLinkHeader, if_neg ?_]
    · exact searchNextUrl_unique hmatch (fun j hj =>
        huniq j (by omega) (by omega))
    · intro he
      rw [List.isEmpty_iff] at he
      rw [he] at hlen
      simp at hlen

/-- Witness for the C5 theorem: on a typical GitHub Link header carrying a
`prev` and a `next` relation, the extractor returns the `next` URL verbatim;
and on a header with no `rel="next"` it returns none. -/
theorem paginator_next_url_witness :
    getNextUrlFromLinkHeader ("<u>; rel=\"prev\", <v>; rel=\"next\"".data) =
      some ("v".data) ∧
    getNextUrlFromLinkHeader ("<u>; rel=\"prev\"".data) = none := by
  constructor
  · exact (paginator_next_url_extraction
      ("<u>; rel=\"prev\", <v>; rel=\"next\"".data)).2
      ("<u>; rel=\"prev\", ".data) ("v".data) [' '] []
      (by decide) (by decide) (by decide) (by decide)
  · exact (paginator_next_url_extraction ("<u>; rel=\"prev\"".data)).1 (by decide)

/-- `FileContent` from `src/models.py`. -/
structure FileContent where
  path : List Char
  content : List Char
  sha : List Char
  deriving DecidableEq, Repr

/-- `CodeMatchResult` from `src/models.py`. -/
structure CodeMatchResult where
  file_path : List Char
  pattern : List Char
  matched : Bool
  line_numbers : List Nat
  matched_lines : List (List Char)
  deriving DecidableEq, Repr

/-- Python `str.lower()` on the ASCII range. -/
def toLowerPy (c : Char) : Char := c.toLower

/-- The literal fallback branch of `check_code_pattern`:
`pattern.lower() in line.lower()`. -/
def lineMatchesLiteral (pattern line : List Char) : Bool :=
  containsList (pattern.map toLowerPy) (line.map toLowerPy)

/-- The per-line test of `check_code_pattern`: either the compiled regex's
`search` (abstracted as a function `f`, since `re.compile` succeeded), or the
case-insensitive literal fallback when the pattern is not a valid regex. -/
def codePatternTest (pattern : List Char)
    (regexSem : Option (List Char → Bool)) : List Char → Bool :=
  match regexSem with
  | some f => f
  | none => lineMatchesLiteral pattern

/-- The `(line number, line)` pairs collected by `check_code_pattern`'s loop
over `enumerate(lines, 1)`. -/
def codePatternHits (fc : FileContent) (pattern : List Char)
    (regexSem : Option (List Char → Bool)) : List (Nat × List Char) :=
  (List.enumFrom 1 (splitlinesPy fc.content)).filter
    (fun p => codePatternTest pattern regexSem p.2)

/-- `GitHubClient.check_code_pattern` from `src/github_client.py`.  The regex
engine is abstracted as `regexSem`: `some f` means `re.compile(pattern,
re.IGNORECASE)` succeeded and `f` is its per-line `search` test; `none` means
`re.compile` raised `re.error`, in which case the code falls back to a
case-insensitive literal substring search.  Lines are enumerated from 1 and
matching lines are stripped before being recorded; `matched` is
`len(matched_lines) > 0`. -/
def check_code_pattern (fc : FileContent) (pattern : List Char)
    (regexSem : Option (List Char → Bool)) : CodeMatchResult :=
  { file_path := fc.path
    pattern := pattern
    matched := decide (0 <
      ((codePatternHits fc pattern regexSem).map (fun p => pyStrip p.2)).length)
    line_numbers := (codePatternHits fc pattern regexSem).map (fun p => p.1)
    matched_lines :=
      (codePatternHits fc pattern regexSem).map (fun p => pyStrip p.2) }

theorem mem_enumFrom_bounds {α : Type} {p : Nat × α} :
    ∀ {n : Nat} {l : List α}, p ∈ List.enumFrom n l →
      n ≤ p.1 ∧ p.1 < n + l.length := by
  intro n l
  induction l generalizing n with
  | nil => intro h; simp [List.enumFrom] at h
  | cons a t ih =>
    intro h
    rw [List.enumFrom, List.mem_cons] at h
    cases h with
    | inl h => subst h; simp
    | inr h =>
      have := ih h
      simp only [List.length_cons]
      omega

theorem pairwise_enumFrom_fst {α : Type} :
    ∀ (n : Nat) (l : List α),
      List.Pairwise (fun p q : Nat × α => p.1 < q.1) (List.enumFrom n l) := by
  intro n l
  induction l generalizing n with
  | nil => simp [List.enumFrom]
  | cons a t ih =>
    rw [List.enumFrom]
    refine List.Pairwise.cons ?_ (ih (n + 1))
    intro q hq
    have := mem_enumFrom_bounds hq
    omega

theorem enumFrom_filter_length_pos {α : Type} (n : Nat) (l : List α)
    (pred : α → Bool) :
    (0 < ((List.enumFrom n l).filter (fun p => pred p.2)).length) ↔
      l.any pred = true := by
  induction l generalizing n with
  | nil => simp [List.enumFrom]
  | cons a t ih =>
    rw [List.enumFrom]
    by_cases hp : pred a = true
    · simp [List.filter_cons, hp]
    · simp only [List.filter_cons]
      rw [if_neg (by simpa using hp)]
      rw [ih (n + 1)]
      simp [hp]

/-- C10: for every file content, pattern and regex semantics,
`check_code_pattern` returns a `CodeMatchResult` whose `matched` flag is true
exactly when `matched_lines` is non-empty, whose `line_numbers` and
`matched_lines` have equal length, whose `line_numbers` form a strictly
increasing sequence of 1-based indices into the file's lines; and when the
pattern is not a valid regular expression (`regexSem = none`) the function
performs a case-insensitive literal substring search (it is total, so it
never raises). -/
theorem check_code_pattern_characterization (fc : FileContent)
    (pattern : List Char) (regexSem : Option (List Char → Bool)) :
    ((check_code_pattern fc pattern regexSem).matched = true ↔
      (check_code_pattern fc pattern regexSem).matched_lines ≠ []) ∧
    (check_code_pattern fc pattern regexSem).line_numbers.length =
      (check_code_pattern fc pattern regexSem).matched_lines.length ∧
    List.Pairwise (fun a b => a < b)
      (check_code_pattern fc pattern regexSem).line_numbers ∧
    (∀ k ∈ (check_code_pattern fc pattern regexSem).line_numbers,
      1 ≤ k ∧ k ≤ (splitlinesPy fc.content).length) ∧
    (regexSem = none →
      (check_code_pattern fc pattern regexSem).matched =
        (splitlinesPy fc.content).any (lineMatchesLiteral pattern)) := by
  refine ⟨?_, ?_, ?_, ?_, ?_⟩
  · simp only [check_code_pattern, decide_eq_true_eq]
    constructor
    · intro h hnil
      rw [hnil] at h
      simp at h
    · intro h
      cases hx : ((codePatternHits fc pattern regexSem).map
          (fun p => pyStrip p.2)) with
      | nil => exact absurd hx h
      | cons a t => simp [hx]
  · simp [check_code_pattern]
  · simp only [check_code_pattern, List.pairwise_map, codePatternHits]
    exact List.Pairwise.filter _ (pairwise_enumFrom_fst 1 _)
  · simp only [check_code_pattern]
    intro k hk
    simp only [List.mem_map] at hk
    obtain ⟨p, hp, hpk⟩ := hk
    rw [codePatternHits] at hp
    have hp2 := List.mem_of_mem_filter hp
    have := mem_enumFrom_bounds hp2
    omega
  · intro hnone
    subst hnone
    simp only [check_code_pattern, List.length_map]
    rw [Bool.eq_iff_iff, decide_eq_true_eq, codePatternHits]
    have : codePatternTest pattern none = lineMatchesLiteral pattern := rfl
    rw [this]
    exact enumFrom_filter_length_pos 1 _ _

/-- Witness for the C10 theorem at a concrete file: two of three lines match
the literal fallback search for an invalid regex pattern. -/
theorem check_code_pattern_witness :
    check_code_pattern ⟨"app.py".data, "import os\nx = 1\nimport re".data,
        "abc".data⟩ ("IMPORT".data) none =
      { file_path := "app.py".data
        pattern := "IMPORT".data
        matched := true
        line_numbers := [1, 3]
        matched_lines := ["import os".data, "import re".data] } ∧
    (check_code_pattern ⟨"app.py".data, "import os\nx = 1\nimport re".data,
        "abc".data⟩ ("IMPORT".data) none).matched =
      (splitlinesPy ("import os\nx = 1\nimport re".data)).any
        (lineMatchesLiteral ("IMPORT".data)) := by
  constructor
  · decide
  · exact (check_code_pattern_characterization
      ⟨"app.py".data, "import os\nx = 1\nimport re".data, "abc".data⟩
      ("IMPORT".data) none).2.2.2.2 rfl

/-- Exceptions relevant to `search_code_in_repo`: an `httpx.HTTPStatusError`
carrying a status code, or any other exception. -/
inductive SearchExc where
  | httpStatus (code : Nat)
  | other
  deriving DecidableEq, Repr

/-- `should_retry_github_search` from `src/github_client.py`: retry only on
HTTP status errors with code 403. -/
def should_retry_github_search : SearchExc → Bool
  | SearchExc.httpStatus c => c == 403
  | SearchExc.other => false

/-- One attempt of the `search_code_in_repo` body: the try/except block maps
a 422 status error to an empty result list; every other exception is
re-raised (403 deliberately so, to reach the tenacity retry wrapper).  The
whole network interaction of one attempt is abstracted as its outcome. -/
def searchAttemptBody (outcome : Except SearchExc (List CodeMatchResult)) :
    Except SearchExc (List CodeMatchResult) :=
  match outcome with
  | Except.ok r => Except.ok r
  | Except.error e =>
    if e = SearchExc.httpStatus 422 then Except.ok [] else Except.error e

/-- The tenacity `retry` wrapper around `search_code_in_repo`:
`retry_if_exception(should_retry_github_search)`, `stop_after_attempt(3)`,
`reraise=True`.  `attempt` numbers the current attempt; the second `Nat` is
the number of retries still allowed after the current attempt. -/
def searchRetryLoop (oracle : Nat → Except SearchExc (List CodeMatchResult))
    (attempt : Nat) : Nat → Except SearchExc (List CodeMatchResult)
  | 0 => searchAttemptBody (oracle attempt)
  | retriesLeft + 1 =>
    match searchAttemptBody (oracle attempt) with
    | Except.ok r => Except.ok r
    | Except.error e =>
      if should_retry_github_search e then
        searchRetryLoop oracle (attempt + 1) retriesLeft
      else Except.error e

/-- `search_code_in_repo` from `src/github_client.py` under its retry
decorator: up to 3 total attempts. -/
def search_code_in_repo
    (oracle : Nat → Except SearchExc (List CodeMatchResult)) :
    Except SearchExc (List CodeMatchResult) :=
  searchRetryLoop oracle 1 2

theorem searchRetryLoop_step
    (oracle : Nat → Except SearchExc (List CodeMatchResult))
    (attempt retriesLeft : Nat) :
    searchRetryLoop oracle attempt (retriesLeft + 1) =
      match searchAttemptBody (oracle attempt) with
      | Except.ok r => Except.ok r
      | Except.error e =>
        if should_retry_github_search e then
          searchRetryLoop oracle (attempt + 1) retriesLeft
        else Except.error e := rfl

theorem searchRetryLoop_last
    (oracle : Nat → Except SearchExc (List CodeMatchResult)) (attempt : Nat) :
    searchRetryLoop oracle attempt 0 = searchAttemptBody (oracle attempt) :=
  rfl

/-- C6: the code-search operation retries only on HTTP 403 responses
(`should_retry_github_search` accepts exactly the 403 status error), up to 3
total attempts; an HTTP 422 response yields an empty result list rather than
an error; every other HTTP status error — and any other exception — is
propagated to the caller uncaught, without retrying. -/
theorem search_retry_policy
    (oracle : Nat → Except SearchExc (List CodeMatchResult)) :
    (∀ e, should_retry_github_search e = true ↔ e = SearchExc.httpStatus 403) ∧
    (oracle 1 = Except.error (SearchExc.httpStatus 422) →
      search_code_in_repo oracle = Except.ok []) ∧
    (∀ c, c ≠ 403 → c ≠ 422 →
      oracle 1 = Except.error (SearchExc.httpStatus c) →
      search_code_in_repo oracle = Except.error (SearchExc.httpStatus c)) ∧
    (oracle 1 = Except.error SearchExc.other →
      search_code_in_repo oracle = Except.error SearchExc.other) ∧
    (∀ rs, oracle 1 = Except.error (SearchExc.httpStatus 403) →
      oracle 2 = Except.ok rs → search_code_in_repo oracle = Except.ok rs) ∧
    (oracle 1 = Except.error (SearchExc.httpStatus 403) →
      oracle 2 = Except.error (SearchExc.httpStatus 403) →
      oracle 3 = Except.error (SearchExc.httpStatus 403) →
      search_code_in_repo oracle = Except.error (SearchExc.httpStatus 403)) := by
  refine ⟨?_, ?_, ?_, ?_, ?_, ?_⟩
  · intro e
    cases e with
    | httpStatus c =>
      simp only [should_retry_github_search]
      constructor
      · intro h
        have : c = 403 := by simpa using h
        rw [this]
      · intro h
        injection h with h
        simp [h]
    | other => simp [should_retry_github_search]
  · intro h
    rw [search_code_in_repo, searchRetryLoop_step, h]
    rfl
  · intro c h403 h422 h
    rw [search_code_in_repo, searchRetryLoop_step, h]
    have hb : searchAttemptBody (Except.error (SearchExc.httpStatus c)) =
        Except.error (SearchExc.httpStatus c) := by
      rw [searchAttemptBody, if_neg (by simp [h422])]
    rw [hb]
    have hr : should_retry_github_search (SearchExc.httpStatus c) = false := by
      simp [should_retry_github_search, h403]
    simp [hr]
  · intro h
    rw [search_code_in_repo, searchRetryLoop_step, h]
    rfl
  · intro rs h1 h2
    rw [search_code_in_repo, searchRetryLoop_step, h1]
    show searchRetryLoop oracle 2 1 = Except.ok rs
    rw [searchRetryLoop_step, h2]
    rfl
  · intro h1 h2 h3
    rw [search_code_in_repo, searchRetryLoop_step, h1]
    show searchRetryLoop oracle 2 1 = Except.error (SearchExc.httpStatus 403)
    rw [searchRetryLoop_step, h2]
    show searchRetryLoop oracle 3 0 = Except.error (SearchExc.httpStatus 403)
    rw [searchRetryLoop_last, h3]
    rfl

/-- Witness for the C6 theorem: an oracle failing with 403 on the first
attempt and succeeding on the second yields the second attempt's results. -/
theorem search_retry_policy_witness :
    search_code_in_repo
      (fun n => if n = 1 then Except.error (SearchExc.httpStatus 403)
                else Except.ok []) = Except.ok [] := by
  exact (search_retry_policy
    (fun n => if n = 1 then Except.error (SearchExc.httpStatus 403)
              else Except.ok [])).2.2.2.2.1 [] rfl rfl

/-- A raw workflow-run object from the Actions API `workflow_runs` list:
only the fields the code reads (`run.get("id")`,
`run.get("check_suite_id")`); `none` models JSON null or a missing key. -/
structure RawWorkflowRun where
  id : Option Nat
  check_suite_id : Option Nat
  deriving DecidableEq, Repr

/-- `run_id = run.get("id"); if not run_id: continue` — the id is kept only
when present and non-zero (Python truthiness). -/
def truthyId (r : RawWorkflowRun) : Bool :=
  match r.id with
  | none => false
  | some i => i != 0

/-- `GitHubClient._validate_workflow_runs` from `src/github_client.py`:
keep the runs with a truthy id whose lightweight existence request
(`GET /actions/runs/{id}`) returned HTTP 200; a non-200 status or a raised
exception (`status i = none`) drops the run. -/
def validateWorkflowRuns (status : Nat → Option Nat)
    (runs : List RawWorkflowRun) : List RawWorkflowRun :=
  runs.filter (fun r =>
    match r.id with
    | none => false
    | some i => i != 0 && status i == some 200)

/-- The recent-runs approach of `GitHubClient.get_workflow_runs_by_check_suite`
(`src/github_client.py`, second approach: list the ~20 most recent repository
workflow runs, keep those with truthy ids, select the ones whose embedded
`check_suite_id` equals the target, validate them, and otherwise fall back to
validating the whole recent list).  `rawRuns` is the fetched
`workflow_runs` page and `status` the existence-check oracle. -/
def workflowRunsByCheckSuiteRecent (rawRuns : List RawWorkflowRun)
    (status : Nat → Option Nat) (check_suite_id : Nat) :
    List RawWorkflowRun :=
  if ((rawRuns.filter truthyId).filter
      (fun r => r.check_suite_id == some check_suite_id)).isEmpty then
    validateWorkflowRuns status (rawRuns.filter truthyId)
  else
    if (validateWorkflowRuns status ((rawRuns.filter truthyId).filter
        (fun r => r.check_suite_id == some check_suite_id))).isEmpty then
      validateWorkflowRuns status (rawRuns.filter truthyId)
    else
      validateWorkflowRuns status ((rawRuns.filter truthyId).filter
        (fun r => r.check_suite_id == some check_suite_id))

/-- C4: when no recent workflow run with a truthy id has an embedded
check-suite identifier equal to the target, the correlator's recent-runs
approach returns the validated recent-run list itself — keeping exactly the
runs whose existence request returned HTTP 200 — rather than an empty list. -/
theorem correlator_fallback_returns_validated_recent
    (rawRuns : List RawWorkflowRun) (status : Nat → Option Nat) (target : Nat)
    (hnone : ∀ r ∈ rawRuns, truthyId r = true →
      r.check_suite_id ≠ some target) :
    workflowRunsByCheckSuiteRecent rawRuns status target =
      validateWorkflowRuns status (rawRuns.filter truthyId) ∧
    ∀ r ∈ workflowRunsByCheckSuiteRecent rawRuns status target,
      ∃ i, r.id = some i ∧ i ≠ 0 ∧ status i = some 200 := by
  have hmatch : ((rawRuns.filter truthyId).filter
      (fun r => r.check_suite_id == some target)) = [] := by
    rw [List.filter_eq_nil_iff]
    intro r hr
    have hmem := List.mem_of_mem_filter hr
    have htr := List.of_mem_filter hr
    have := hnone r hmem htr
    simpa using this
  have hres : workflowRunsByCheckSuiteRecent rawRuns status target =
      validateWorkflowRuns status (rawRuns.filter truthyId) := by
    rw [workflowRunsByCheckSuiteRecent, hmatch]
    rfl
  refine ⟨hres, ?_⟩
  intro r hr
  rw [hres] at hr
  have hpred := List.of_mem_filter hr
  cases hid : r.id with
  | none => rw [validateWorkflowRuns] at hr; rw [hid] at hpred; simp at hpred
  | some i =>
    rw [validateWorkflowRuns] at hr
    rw [hid] at hpred
    simp only [Bool.and_eq_true, bne_iff_ne, ne_eq, beq_iff_eq] at hpred
    exact ⟨i, rfl, hpred.1, hpred.2⟩

/-- Witness for the C4 theorem: three recent runs, none matching check-suite
7; the result is the validated recent list (only the run with id 3, which
answers 200). -/
theorem correlator_fallback_witness :
    (∀ r ∈ [RawWorkflowRun.mk (some 3) (some 9), RawWorkflowRun.mk none (some 7),
        RawWorkflowRun.mk (some 4) none], truthyId r = true →
      r.check_suite_id ≠ some 7) ∧
    workflowRunsByCheckSuiteRecent
      [RawWorkflowRun.mk (some 3) (some 9), RawWorkflowRun.mk none (some 7),
        RawWorkflowRun.mk (some 4) none]
      (fun i => if i = 3 then some 200 else some 404) 7 =
      validateWorkflowRuns (fun i => if i = 3 then some 200 else some 404)
        ([RawWorkflowRun.mk (some 3) (some 9), RawWorkflowRun.mk none (some 7),
          RawWorkflowRun.mk (some 4) none].filter truthyId) := by
  refine ⟨by decide, ?_⟩
  exact (correlator_fallback_returns_validated_recent _ _ 7 (by decide)).1

/-- A raw check-run object from the check-runs API: the fields read by
`get_pr_check_runs`.  `rawOutputText` is `some t` when the raw run carries a
truthy `output` dict with a `text` entry `t`; `conclusion` is `none` when the
platform sent null. -/
structure RawCheckRun where
  name : List Char
  status : List Char
  conclusion : Option (List Char)
  rawOutputText : Option (List Char)
  check_suite_id : Option Nat
  deriving DecidableEq, Repr

/-- `CheckRun` from `src/models.py`, restricted to the fields the claims are
about; `output_text` is the `text` entry of the mutable `output` dict. -/
structure CheckRun where
  name : List Char
  status : List Char
  conclusion : List Char
  output_text : Option (List Char)
  deriving DecidableEq, Repr

/-- `run["conclusion"] or "action_required"`: Python `or` substitutes the
default for falsy values, i.e. JSON null and the empty string. -/
def decodeConclusion : Option (List Char) → List Char
  | none => "action_required".data
  | some s => if s.isEmpty then ("action_required".data) else s

/-- The `Literal` conclusion enumeration of `CheckRun` in `src/models.py`. -/
def validConclusions : List (List Char) :=
  ["success".data, "failure".data, "cancelled".data, "timed_out".data,
   "action_required".data]

/-- An entry of the downloaded log archive (name and decoded text content). -/
structure ZipEntry where
  name : List Char
  content : List Char
  deriving DecidableEq, Repr

/-- The network interactions of the log-enrichment branch of
`get_pr_check_runs`, abstracted: `workflowRunsFor` is the list returned by
`get_workflow_runs_by_check_suite` for a check-suite id, and `logsFor` the
decoded entries of the ZIP archive returned by `get_workflow_logs` for a
workflow-run id (`none` when no logs could be downloaded, which includes the
empty/falsy content case). -/
structure LogEnv where
  workflowRunsFor : Nat → List RawWorkflowRun
  logsFor : Nat → Option (List ZipEntry)

/-- Python `job_name.replace('.txt', '')`: remove every left-to-right
non-overlapping occurrence of `.txt`. -/
def removeTxtOcc : List Char → List Char
  | '.' :: 't' :: 'x' :: 't' :: rest => removeTxtOcc rest
  | c :: rest => c :: removeTxtOcc rest
  | [] => []

def lastComponentAux (cur : List Char) : List Char → List Char
  | [] => cur.reverse
  | c :: t =>
    if c = '/' then lastComponentAux [] t else lastComponentAux (c :: cur) t

/-- Python `log_file.split('/')[-1]`. -/
def lastComponent (l : List Char) : List Char := lastComponentAux [] l

/-- One element of the `logs` list built for a `.txt` archive entry:
`f"=== JOB: {job_name} ===\n{body}\n"`; the body is the trimmed tail when
that is non-empty (Python truthiness of `last_lines`) and the whole decoded
log otherwise. -/
def jobLogEntry (e : ZipEntry) : List Char :=
  "=== JOB: ".data ++ removeTxtOcc (lastComponent e.name) ++ " ===\n".data ++
    (if (extractLastLinesBeforeCompletion e.content 20).isEmpty then e.content
     else extractLastLinesBeforeCompletion e.content 20) ++ ['\n']

/-- `job_logs = "\n".join(logs)`. -/
def buildJobLogs (entries : List ZipEntry) : List Char :=
  joinNL (entries.map jobLogEntry)

/-- The log-enrichment attempt of `get_pr_check_runs` for one raw check run:
follow the truthy check-suite id to the correlated workflow runs, take the
first run's truthy id, download the archive and keep entries ending in
`.txt`; `some` is returned exactly when log text would be attached. -/
def enrichResult (env : LogEnv) (r : RawCheckRun) : Option (List Char) :=
  match r.check_suite_id with
  | none => none
  | some cs =>
    if cs = 0 then none
    else
      match env.workflowRunsFor cs with
      | [] => none
      | w :: _ =>
        match w.id with
        | none => none
        | some wid =>
          if wid = 0 then none
          else
            match env.logsFor wid with
            | none => none
            | some entries =>
              if (entries.filter
                  (fun e => ".txt".data.isSuffixOf e.name)).isEmpty then none
              else some (buildJobLogs (entries.filter
                (fun e => ".txt".data.isSuffixOf e.name)))

/-- The `CheckRun` constructed for a raw run before any enrichment. -/
def baseRun (r : RawCheckRun) : CheckRun :=
  { name := r.name
    status := r.status
    conclusion := decodeConclusion r.conclusion
    output_text := r.rawOutputText }

/-- Whether the decoded conclusion is in the code's enrichment test
`check_run.conclusion in ["failure", "timed_out"]`. -/
def inEnrichSet (r : RawCheckRun) : Bool :=
  decodeConclusion r.conclusion == "failure".data ||
    decodeConclusion r.conclusion == "timed_out".data

/-- Processing of one check run inside the loop of `get_pr_check_runs`:
build the `CheckRun`, and when the conclusion is failure/timed_out and no
logs were attached yet, attempt log enrichment; returns the run together
with the updated `found_logs_for_failed_check` flag. -/
def processCheckRun (env : LogEnv) (found : Bool) (r : RawCheckRun) :
    CheckRun × Bool :=
  if inEnrichSet r && !found then
    match enrichResult env r with
    | some logs => ({ baseRun r with output_text := some logs }, true)
    | none => (baseRun r, found)
  else (baseRun r, found)

def processCheckRunsFrom (env : LogEnv) (found : Bool) :
    List RawCheckRun → List CheckRun
  | [] => []
  | r :: rest =>
    (processCheckRun env found r).1 ::
      processCheckRunsFrom env (processCheckRun env found r).2 rest

/-- The check-run list built by `GitHubClient.get_pr_check_runs`
(`src/github_client.py`) from the raw check runs of the head commit; the
`found_logs_for_failed_check` flag starts false. -/
def get_pr_check_runs (env : LogEnv) (runs : List RawCheckRun) :
    List CheckRun :=
  processCheckRunsFrom env false runs

/-- A raw run that the code both wants to enrich (failure/timed_out) and can
enrich (fetchable logs): exactly the runs that flip the
`found_logs_for_failed_check` flag. -/
def enrichCond (env : LogEnv) (r : RawCheckRun) : Bool :=
  inEnrichSet r && (enrichResult env r).isSome

theorem processCheckRun_fst (env : LogEnv) (found : Bool) (r : RawCheckRun) :
    (processCheckRun env found r).1 =
      if !found && enrichCond env r then
        { baseRun r with output_text := enrichResult env r }
      else baseRun r := by
  rw [processCheckRun, enrichCond]
  by_cases hs : inEnrichSet r = true
  · cases found with
    | false =>
      cases henr : enrichResult env r with
      | none => simp [hs, henr]
      | some logs => simp [hs, henr]
    | true => simp [hs]
  · simp [hs]

theorem processCheckRun_snd (env : LogEnv) (found : Bool) (r : RawCheckRun) :
    (processCheckRun env found r).2 = (found || enrichCond env r) := by
  rw [processCheckRun, enrichCond]
  by_cases hs : inEnrichSet r = true
  · cases found with
    | false =>
      cases henr : enrichResult env r with
      | none => simp [hs, henr]
      | some logs => simp [hs, henr]
    | true => simp [hs]
  · simp [hs]

theorem processCheckRunsFrom_length (env : LogEnv) (found : Bool)
    (runs : List RawCheckRun) :
    (processCheckRunsFrom env found runs).length = runs.length := by
  induction runs generalizing found with
  | nil => rfl
  | cons r rest ih =>
    rw [processCheckRunsFrom]
    simp [ih]

theorem processCheckRunsFrom_map_id (env : LogEnv) (found : Bool)
    (runs : List RawCheckRun) :
    (processCheckRunsFrom env found runs).map
        (fun c => (c.name, c.status, c.conclusion)) =
      runs.map (fun r => (r.name, r.status, decodeConclusion r.conclusion)) := by
  induction runs generalizing found with
  | nil => rfl
  | cons r rest ih =>
    rw [processCheckRunsFrom]
    rw [List.map_cons, List.map_cons, ih]
    rw [processCheckRun_fst]
    by_cases hc : (!found && enrichCond env r) = true
    · rw [if_pos hc]; rfl
    · rw [if_neg hc]; rfl

theorem processCheckRunsFrom_get (env : LogEnv) :
    ∀ (runs : List RawCheckRun) (found : Bool) (i : Nat)
      (h1 : i < (processCheckRunsFrom env found runs).length)
      (h2 : i < runs.length),
      (processCheckRunsFrom env found runs).get ⟨i, h1⟩ =
        if !found && !((runs.take i).any (enrichCond env)) &&
            enrichCond env (runs.get ⟨i, h2⟩) then
          { baseRun (runs.get ⟨i, h2⟩) with
              output_text := enrichResult env (runs.get ⟨i, h2⟩) }
        else baseRun (runs.get ⟨i, h2⟩) := by
  intro runs
  induction runs with
  | nil => intro found i h1 h2; exact absurd h2 (by simp)
  | cons r rest ih =>
    intro found i h1 h2
    cases i with
    | zero =>
      show (processCheckRun env found r).1 = _
      rw [processCheckRun_fst]
      simp
    | succ k =>
      show (processCheckRunsFrom env (processCheckRun env found r).2 rest).get
          ⟨k, _⟩ = _
      rw [ih (processCheckRun env found r).2 k _ (by simpa using h2)]
      have hflag : (processCheckRun env found r).2 =
          (found || enrichCond env r) := processCheckRun_snd env found r
      have hget : (r :: rest).get ⟨k + 1, h2⟩ =
          rest.get ⟨k, by simpa using h2⟩ := rfl
      rw [hget]
      have hcond : (!(processCheckRun env found r).2 &&
            !((rest.take k).any (enrichCond env)) &&
            enrichCond env (rest.get ⟨k, by simpa using h2⟩)) =
          (!found && !(((r :: rest).take (k + 1)).any (enrichCond env)) &&
            enrichCond env (rest.get ⟨k, by simpa using h2⟩)) := by
        rw [hflag, List.take_succ_cons, List.any_cons, Bool.not_or, Bool.not_or]
        cases found <;> cases enrichCond env r <;> simp
      rw [hcond]

theorem processCheckRunsFrom_output_none (env : LogEnv)
    (runs : List RawCheckRun) (hraw : ∀ r ∈ runs, r.rawOutputText = none) :
    ((processCheckRunsFrom env true runs).filter
      (fun c => c.output_text.isSome)).length = 0 := by
  induction runs with
  | nil => rfl
  | cons r rest ih =>
    rw [processCheckRunsFrom]
    have h1 : (processCheckRun env true r).1 = baseRun r := by
      rw [processCheckRun_fst]
      simp
    have h2 : (processCheckRun env true r).2 = true := by
      rw [processCheckRun_snd]
      simp
    rw [h1, h2, List.filter_cons]
    have hout : (baseRun r).output_text = none := by
      rw [baseRun]
      exact hraw r (by simp)
    rw [if_neg (by simp [hout])]
    exact ih (fun x hx => hraw x (by simp [hx]))

theorem processCheckRunsFrom_count_le_one (env : LogEnv)
    (runs : List RawCheckRun) (found : Bool)
    (hraw : ∀ r ∈ runs, r.rawOutputText = none) :
    ((processCheckRunsFrom env found runs).filter
      (fun c => c.output_text.isSome)).length ≤ 1 := by
  induction runs generalizing found with
  | nil => simp [processCheckRunsFrom]
  | cons r rest ih =>
    rw [processCheckRunsFrom, List.filter_cons]
    rw [processCheckRun_fst, processCheckRun_snd]
    by_cases hc : (!found && enrichCond env r) = true
    · rw [if_pos hc]
      have hfound : found = false := by
        cases found
        · rfl
        · simp at hc
      have henr : enrichCond env r = true := by
        cases he : enrichCond env r
        · rw [hfound, he] at hc; simp at hc
        · rfl
      have hsome : (enrichResult env r).isSome = true := by
        rw [enrichCond, Bool.and_eq_true] at henr
        exact henr.2
      have hflag : (found || enrichCond env r) = true := by
        rw [henr, Bool.or_true]
      rw [hflag]
      have hz := processCheckRunsFrom_output_none env rest
        (fun x hx => hraw x (by simp [hx]))
      by_cases ho : ({ baseRun r with
          output_text := enrichResult env r } : CheckRun).output_text.isSome = true
      · rw [if_pos ho, List.length_cons, hz]
      · rw [if_neg ho, hz]
        omega
    · rw [if_neg hc]
      have hout : (baseRun r).output_text = none := by
        rw [baseRun]
        exact hraw r (by simp)
      rw [if_neg (by simp [hout])]
      exact ih (found || enrichCond env r) (fun x hx => hraw x (by simp [hx]))

theorem take_any_eq_false_iff {α : Type} (p : α → Bool) :
    ∀ (l : List α) (i : Nat), ((l.take i).any p = false) ↔
      ∀ j (hj1 : j < i) (hj2 : j < l.length), p (l.get ⟨j, hj2⟩) = false := by
  intro l
  induction l with
  | nil =>
    intro i
    simp
  | cons a t ih =>
    intro i
    cases i with
    | zero => simp
    | succ k =>
      rw [List.take_succ_cons, List.any_cons, Bool.or_eq_false_iff, ih k]
      constructor
      · intro ⟨ha, hall⟩ j hj1 hj2
        cases j with
        | zero => exact ha
        | succ j' => exact hall j' (by omega) (by simpa using hj2)
      · intro hall
        refine ⟨hall 0 (by omega) (by simp), ?_⟩
        intro j hj1 hj2
        exact hall (j + 1) (by omega) (by simpa using hj2)

/-- C2 (amended): in every check-run list produced by `get_pr_check_runs`
from raw runs carrying no API-side output text, at most one `CheckRun` ends
with attached log output text; a run ends with output text exactly when its
conclusion is failure or timed_out, its logs are fetchable, and no earlier
run in list order satisfies both; and all check runs are returned in their
original order with their names, statuses and conclusions intact. -/
theorem first_failing_check_with_logs_wins (env : LogEnv)
    (runs : List RawCheckRun)
    (hraw : ∀ r ∈ runs, r.rawOutputText = none) :
    (get_pr_check_runs env runs).map
        (fun c => (c.name, c.status, c.conclusion)) =
      runs.map (fun r => (r.name, r.status, decodeConclusion r.conclusion)) ∧
    ((get_pr_check_runs env runs).filter
      (fun c => c.output_text.isSome)).length ≤ 1 ∧
    (∀ i (h1 : i < (get_pr_check_runs env runs).length)
        (h2 : i < runs.length),
      ((get_pr_check_runs env runs).get ⟨i, h1⟩).output_text.isSome = true ↔
        (enrichCond env (runs.get ⟨i, h2⟩) = true ∧
          ∀ j (hj : j < i),
            enrichCond env (runs.get ⟨j, by omega⟩) = false)) := by
  refine ⟨processCheckRunsFrom_map_id env false runs, ?_, ?_⟩
  · exact processCheckRunsFrom_count_le_one env runs false hraw
  · intro i h1 h2
    simp only [get_pr_check_runs] at h1 ⊢
    rw [processCheckRunsFrom_get env runs false i h1 h2]
    have hrawi : (runs.get ⟨i, h2⟩).rawOutputText = none :=
      hraw _ (runs.get_mem i h2)
    have htake : ((runs.take i).any (enrichCond env) = false) ↔
        (∀ j (hj : j < i), enrichCond env (runs.get ⟨j, by omega⟩) = false) := by
      rw [take_any_eq_false_iff]
      constructor
      · intro hall j hj
        exact hall j hj (by omega)
      · intro hall j hj1 hj2
        exact hall j hj1
    by_cases hc : enrichCond env (runs.get ⟨i, h2⟩) = true
    · by_cases hA : (runs.take i).any (enrichCond env) = true
      · rw [if_neg (by simp [hA])]
        constructor
        · intro hl
          exfalso
          rw [baseRun] at hl
          simp only [hrawi] at hl
          simp at hl
        · intro hand
          exfalso
          have hfalse : (runs.take i).any (enrichCond env) = false :=
            htake.2 hand.2
          rw [hA] at hfalse
          exact absurd hfalse (by simp)
      · have hA' : (runs.take i).any (enrichCond env) = false := by
          cases h' : (runs.take i).any (enrichCond env)
          · rfl
          · exact absurd h' hA
        rw [if_pos (by simp [hA']; exact hc)]
        constructor
        · intro _
          exact ⟨hc, htake.1 hA'⟩
        · intro _
          have hc2 := hc
          rw [enrichCond, Bool.and_eq_true] at hc2
          simpa using hc2.2
    · have hc' : enrichCond env (runs.get ⟨i, h2⟩) = false := by
        cases h' : enrichCond env (runs.get ⟨i, h2⟩)
        · rfl
        · exact absurd h' hc
      rw [if_neg (fun habs => by
        rw [Bool.and_eq_true] at habs
        rw [hc'] at habs
        exact absurd habs.2 (by simp))]
      simp only [List.get_eq_getElem] at hrawi hc'
      simp [baseRun, hrawi, hc']

/-- Witness for the C2 theorem: two failure runs with fetchable logs; only
the first (index 0) ends with attached output text. -/
theorem first_failing_check_with_logs_wins_witness :
    ((get_pr_check_runs
        (LogEnv.mk (fun _ => [RawWorkflowRun.mk (some 5) (some 1)])
          (fun _ => some [ZipEntry.mk ("0_build.txt".data) ("boom".data)]))
        [RawCheckRun.mk ("a".data) ("completed".data) (some ("failure".data)) none
          (some 1),
         RawCheckRun.mk ("b".data) ("completed".data) (some ("failure".data)) none
          (some 1)]).filter (fun c => c.output_text.isSome)).length ≤ 1 := by
  exact (first_failing_check_with_logs_wins
    (LogEnv.mk (fun _ => [RawWorkflowRun.mk (some 5) (some 1)])
      (fun _ => some [ZipEntry.mk ("0_build.txt".data) ("boom".data)]))
    [RawCheckRun.mk ("a".data) ("completed".data) (some ("failure".data)) none
      (some 1),
     RawCheckRun.mk ("b".data) ("completed".data) (some ("failure".data)) none
      (some 1)] (by decide)).2.1

/-- The failing filter of the orchestrator (`src/agent.py`):
`c.conclusion in ["failure", "cancelled", "timed_out"]`. -/
def checkRunIsFailing (c : CheckRun) : Bool :=
  c.conclusion == "failure".data || c.conclusion == "cancelled".data ||
    c.conclusion == "timed_out".data

/-- A log environment in which every check suite correlates to workflow run 5
whose downloaded archive contains one `.txt` log file. -/
def envWithLogs : LogEnv :=
  LogEnv.mk (fun _ => [RawWorkflowRun.mk (some 5) (some 1)])
    (fun _ => some [ZipEntry.mk ("0_build.txt".data) ("boom".data)])

/-- C2 counterexample: a batch whose failing check runs (in the spec's sense,
which includes `cancelled`) all have fetchable logs, yet the FIRST failing
run in list order (a cancelled one) ends without output text while the later
failure run receives the logs — the code's enrichment test skips cancelled
runs. -/
theorem first_failing_check_counterexample :
    (get_pr_check_runs envWithLogs
      [RawCheckRun.mk ("lint".data) ("completed".data) (some ("cancelled".data))
        none (some 1),
       RawCheckRun.mk ("test".data) ("completed".data) (some ("failure".data))
        none (some 1)]).map (fun c => c.output_text.isSome) = [false, true] ∧
    checkRunIsFailing (baseRun (RawCheckRun.mk ("lint".data) ("completed".data)
      (some ("cancelled".data)) none (some 1))) = true ∧
    (enrichResult envWithLogs (RawCheckRun.mk ("lint".data) ("completed".data)
      (some ("cancelled".data)) none (some 1))).isSome = true := by
  decide

/-- C3 (amended): `get_pr_check_runs` attempts log enrichment exactly for the
check runs whose conclusion is failure or timed_out — cancelled runs are not
enriched — and stops after the first run for which logs are successfully
attached: until then a failure/timed_out run's output text reflects the
enrichment attempt (the fetched logs, falling back to the raw output when no
logs could be fetched); a run with any other conclusion, and every run after
the first success, keeps its raw output text. -/
theorem enrichment_attempt_set (env : LogEnv) (runs : List RawCheckRun) :
    (get_pr_check_runs env runs).length = runs.length ∧
    ∀ i (h1 : i < (get_pr_check_runs env runs).length)
      (h2 : i < runs.length),
      (inEnrichSet (runs.get ⟨i, h2⟩) = false →
        ((get_pr_check_runs env runs).get ⟨i, h1⟩).output_text =
          (runs.get ⟨i, h2⟩).rawOutputText) ∧
      ((runs.take i).any (enrichCond env) = true →
        ((get_pr_check_runs env runs).get ⟨i, h1⟩).output_text =
          (runs.get ⟨i, h2⟩).rawOutputText) ∧
      (inEnrichSet (runs.get ⟨i, h2⟩) = true →
        (runs.take i).any (enrichCond env) = false →
        ((get_pr_check_runs env runs).get ⟨i, h1⟩).output_text =
          (match enrichResult env (runs.get ⟨i, h2⟩) with
           | some t => some t
           | none => (runs.get ⟨i, h2⟩).rawOutputText)) := by
  refine ⟨processCheckRunsFrom_length env false runs, ?_⟩
  intro i h1 h2
  simp only [get_pr_check_runs] at h1 ⊢
  rw [processCheckRunsFrom_get env runs false i h1 h2]
  refine ⟨?_, ?_, ?_⟩
  · intro hset
    rw [if_neg (fun habs => by
      rw [Bool.and_eq_true] at habs
      have := habs.2
      rw [enrichCond, Bool.and_eq_true] at this
      rw [hset] at this
      exact absurd this.1 (by simp))]
    rfl
  · intro hany
    rw [if_neg (fun habs => by
      rw [Bool.and_eq_true, Bool.and_eq_true] at habs
      have := habs.1.2
      rw [hany] at this
      exact absurd this (by simp))]
    rfl
  · intro hset hany
    cases henr : enrichResult env (runs.get ⟨i, h2⟩) with
    | some t =>
      have hcond : (!false && !((runs.take i).any (enrichCond env)) &&
          enrichCond env (runs.get ⟨i, h2⟩)) = true := by
        rw [hany, enrichCond, hset, henr]
        rfl
      rw [if_pos hcond]
    | none =>
      have hcond : ¬((!false && !((runs.take i).any (enrichCond env)) &&
          enrichCond env (runs.get ⟨i, h2⟩)) = true) := by
        rw [enrichCond, henr]
        simp
      rw [if_neg hcond]
      rfl

/-- Witness for the C3 theorem: a timed_out run with fetchable logs has its
output text filled by the enrichment attempt. -/
theorem enrichment_attempt_set_witness :
    ((get_pr_check_runs envWithLogs
        [RawCheckRun.mk ("test".data) ("completed".data) (some ("timed_out".data))
          none (some 1)]).get ⟨0, by decide⟩).output_text =
      (match enrichResult envWithLogs (RawCheckRun.mk ("test".data)
          ("completed".data) (some ("timed_out".data)) none (some 1)) with
       | some t => some t
       | none => none) := by
  exact ((enrichment_attempt_set envWithLogs
    [RawCheckRun.mk ("test".data) ("completed".data) (some ("timed_out".data))
      none (some 1)]).2 0 (by decide) (by decide)).2.2 (by decide) (by decide)

/-- C3 counterexample: a cancelled check run with fetchable logs is not
enriched by the code (its output text stays empty), although the claim
includes `cancelled` in the enrichment set and an attempt would have
attached the fetchable logs. -/
theorem enrichment_attempt_set_counterexample :
    (get_pr_check_runs envWithLogs
      [RawCheckRun.mk ("job".data) ("completed".data) (some ("cancelled".data))
        none (some 1)]).map (fun c => c.output_text) = [none] ∧
    (enrichResult envWithLogs (RawCheckRun.mk ("job".data) ("completed".data)
      (some ("cancelled".data)) none (some 1))).isSome = true ∧
    decodeConclusion (some ("cancelled".data)) = "cancelled".data := by
  decide

/-- C8: a check run whose raw API conclusion is null is decoded by
`get_pr_check_runs`'s per-run processing with conclusion `action_required`,
a member of the model's conclusion enumeration {success, failure, cancelled,
timed_out, action_required} — never an invalid or unrepresentable state. -/
theorem null_conclusion_decodes_action_required (env : LogEnv) (found : Bool)
    (name status : List Char) (rawOut : Option (List Char))
    (csid : Option Nat) :
    (processCheckRun env found
        (RawCheckRun.mk name status none rawOut csid)).1.conclusion =
      "action_required".data ∧
    (processCheckRun env found
        (RawCheckRun.mk name status none rawOut csid)).1.conclusion
      ∈ validConclusions := by
  have h : (processCheckRun env found
      (RawCheckRun.mk name status none rawOut csid)).1.conclusion =
      decodeConclusion none := by
    rw [processCheckRun_fst]
    by_cases hc : (!found && enrichCond env
        (RawCheckRun.mk name status none rawOut csid)) = true
    · rw [if_pos hc]
      rfl
    · rw [if_neg hc]
      rfl
  rw [h]
  exact ⟨rfl, by decide⟩

/-- An item of the `/issues?state=open` listing: its title and whether it
carries the `pull_request` key (the platform lists pull requests among
issues). -/
structure IssueItem where
  title : List Char
  isPR : Bool
  deriving DecidableEq, Repr

/-- Whether the dedup regex `Dependabot( PR)? #<n>( | to )` matches at the
head of `s`: the four expansions of the optional ` PR` group and the
space-or-` to `-alternation. -/
def prTitleMatchAt (n : Nat) (s : List Char) : Bool :=
  ("Dependabot PR #".data ++ (Nat.repr n).data ++ " ".data).isPrefixOf s ||
  ("Dependabot PR #".data ++ (Nat.repr n).data ++ " to ".data).isPrefixOf s ||
  ("Dependabot #".data ++ (Nat.repr n).data ++ " ".data).isPrefixOf s ||
  ("Dependabot #".data ++ (Nat.repr n).data ++ " to ".data).isPrefixOf s

def anySuffix (p : List Char → Bool) : List Char → Bool
  | [] => p []
  | c :: t => p (c :: t) || anySuffix p t

/-- `re.search` of the dedup pattern over an issue title. -/
def prTitleMatch (n : Nat) (title : List Char) : Bool :=
  anySuffix (prTitleMatchAt n) title

/-- `GitHubClient.find_existing_issues` from `src/github_client.py`: walk the
open-issue pages, collecting every item whose title matches the dedup
pattern; a transport/HTTP error breaks the loop, returning what was found so
far.  The loop does NOT skip items carrying `pull_request`, although the
function's docstring says "issues (not PRs)". -/
def find_existing_issues (n : Nat) :
    List (Except Unit (List IssueItem)) → List IssueItem
  | [] => []
  | Except.error _ :: _ => []
  | Except.ok page :: rest =>
    page.filter (fun it => prTitleMatch n it.title) ++
      find_existing_issues n rest

/-- `GitHubClient.issue_exists_with_title` from `src/github_client.py`: walk
the open-issue pages; skip items carrying `pull_request`; return true at the
first remaining item whose title equals the target exactly; a transport/HTTP
error returns false. -/
def issue_exists_with_title (title : List Char) :
    List (Except Unit (List IssueItem)) → Bool
  | [] => false
  | Except.error _ :: _ => false
  | Except.ok page :: rest =>
    if page.any (fun it => !it.isPR && it.title == title) then true
    else issue_exists_with_title title rest

/-- C7 evaluated at the failing input: an open pull request whose title
matches the dedup pattern IS returned by `find_existing_issues` — pull
requests are not excluded from the pattern lookup, contradicting the claim
and the function's own docstring — while `issue_exists_with_title` does
exclude pull requests. -/
theorem dedup_pull_request_not_excluded :
    find_existing_issues 7
      [Except.ok [IssueItem.mk
        ("Dependabot PR #7 to upgrade requests failed CI".data) true]] =
      [IssueItem.mk ("Dependabot PR #7 to upgrade requests failed CI".data)
        true] ∧
    issue_exists_with_title
      ("Dependabot PR #7 to upgrade requests failed CI".data)
      [Except.ok [IssueItem.mk
        ("Dependabot PR #7 to upgrade requests failed CI".data) true]] =
      false := by
  decide

/-- Package-name extraction of the orchestrator (`src/agent.py`):
`re.match(r"(?:Bump|Update) ([^ ]+)", pr_title)`, group 1 being the maximal
non-empty run of non-space characters; falls back to the whole title when
the anchored match fails. -/
def extractTargetPkg (title : List Char) : List Char :=
  if ("Bump ".data).isPrefixOf title then
    if ((title.drop 5).takeWhile (fun c => c != ' ')).isEmpty then title
    else (title.drop 5).takeWhile (fun c => c != ' ')
  else if ("Update ".data).isPrefixOf title then
    if ((title.drop 7).takeWhile (fun c => c != ' ')).isEmpty then title
    else (title.drop 7).takeWhile (fun c => c != ' ')
  else title

/-- `CheckRun.get_output_text` from `src/models.py`: the text entry of the
output dict when truthy (present and non-empty). -/
def getOutputText (c : CheckRun) : Option (List Char) :=
  match c.output_text with
  | some t => if t.isEmpty then none else some t
  | none => none

/-- `has_logs = any(c.get_output_text() is not None for c in failing)`. -/
def hasLogsAny (runs : List CheckRun) : Bool :=
  runs.any (fun c => (getOutputText c).isSome)

/-- `failing = [c for c in check_runs if c.conclusion in [...]]`. -/
def failingOf (runs : List CheckRun) : List CheckRun :=
  runs.filter checkRunIsFailing

/-- The issue title generated by `process_all` in `src/agent.py`:
`"Dependabot PR #{n} to upgrade {pkg} failed CI"` when at least one failing
run carries log output text, and `"Dependabot #{n} to upgrade {pkg} failed
CI"` (no "PR") otherwise. -/
def dependabotIssueTitle (n : Nat) (prTitle : List Char) (hasLogs : Bool) :
    List Char :=
  if hasLogs then
    ("Dependabot PR #".data) ++ (Nat.repr n).data ++ " to upgrade ".data ++
      extractTargetPkg prTitle ++ " failed CI".data
  else
    ("Dependabot #".data) ++ (Nat.repr n).data ++ " to upgrade ".data ++
      extractTargetPkg prTitle ++ " failed CI".data

/-- C9 (amended): for pull request #42 titled "Bump requests from 2.25.1 to
2.26.0" with one check run whose conclusion is failure AND which carries log
output text, the orchestrator extracts target package `requests` from the
title and generates the issue title "Dependabot PR #42 to upgrade requests
failed CI". -/
theorem dependabot_scenario_title (cr : CheckRun)
    (hc : cr.conclusion = "failure".data)
    (hl : (getOutputText cr).isSome = true) :
    extractTargetPkg ("Bump requests from 2.25.1 to 2.26.0".data) =
      "requests".data ∧
    failingOf [cr] = [cr] ∧
    dependabotIssueTitle 42 ("Bump requests from 2.25.1 to 2.26.0".data)
        (hasLogsAny (failingOf [cr])) =
      "Dependabot PR #42 to upgrade requests failed CI".data := by
  have hfail : failingOf [cr] = [cr] := by
    rw [failingOf, List.filter_cons]
    rw [if_pos (by rw [checkRunIsFailing, hc]; rfl)]
    rfl
  refine ⟨by decide, hfail, ?_⟩
  have hlogs : hasLogsAny (failingOf [cr]) = true := by
    rw [hfail, hasLogsAny, List.any_cons]
    rw [hl]
    rfl
  rw [hlogs, dependabotIssueTitle, if_pos rfl]
  decide

/-- Witness for the C9 theorem at a concrete failing check run carrying log
output text. -/
theorem dependabot_scenario_title_witness :
    dependabotIssueTitle 42 ("Bump requests from 2.25.1 to 2.26.0".data)
        (hasLogsAny (failingOf [CheckRun.mk ("ci".data) ("completed".data)
          ("failure".data) (some ("log tail".data))])) =
      "Dependabot PR #42 to upgrade requests failed CI".data := by
  exact (dependabot_scenario_title
    (CheckRun.mk ("ci".data) ("completed".data) ("failure".data)
      (some ("log tail".data))) (by decide) (by decide)).2.2

/-- C9 counterexample: with the same pull request and a failing check run
WITHOUT log output text, the generated title is "Dependabot #42 to upgrade
requests failed CI" — not the claimed "Dependabot PR #42 ..." — so the claim
as stated (which does not require attached logs) fails on the code. -/
theorem dependabot_scenario_title_counterexample :
    dependabotIssueTitle 42 ("Bump requests from 2.25.1 to 2.26.0".data)
        (hasLogsAny (failingOf [CheckRun.mk ("ci".data) ("completed".data)
          ("failure".data) none])) =
      "Dependabot #42 to upgrade requests failed CI".data ∧
    dependabotIssueTitle 42 ("Bump requests from 2.25.1 to 2.26.0".data)
        (hasLogsAny (failingOf [CheckRun.mk ("ci".data) ("completed".data)
          ("failure".data) none])) ≠
      "Dependabot PR #42 to upgrade requests failed CI".data := by
  constructor
  · decide
  · decide

end RepoAgent
